import Mathlib

/-!
Shallow embedding of src/GestStock.py: a FIFO inventory ledger keyed by an
uppercase kind character (class GestionStock), a bounded alert log of
capacity 3 (class GestionAlertes, a deque with maxlen 3), and an order
assembler (class GestionColis).  Python text values are modelled as lists
of characters; printed lines are collected in an explicit output field of
the state.  Python exceptions that escape (IndexError, ValueError raised
by the unguarded parsing in GestionColis) are modelled by an explicit
error component in the result.
-/

/-- Model of class Produit: a product with its kind character and volume.
The Python field volume holds an arbitrary int, so it is an Int here. -/
structure Produit where
  type_p : Char
  volume : Int
deriving DecidableEq, Repr

/-- Model of class Alerte: a system alert wrapping a message. -/
structure Alerte where
  message : String
deriving DecidableEq, Repr

/-- Exceptions that the Python code can raise from parsing: IndexError
from indexing an empty string, ValueError from int() on a bad literal. -/
inductive Erreur where
  | indexError
  | valueError
deriving DecidableEq, Repr

/-- Combined mutable state of the services: the per-kind queues of
GestionStock (a Python dict, modelled as an association list keyed by the
kind character), the alert log of GestionAlertes (most recent last), and
the lines printed so far (in order). -/
structure Etat where
  stock : List (Char × List Produit)
  log : List Alerte
  sortie : List String
deriving DecidableEq, Repr

/-- State of the freshly constructed services in main: empty dict, empty
alert deque, nothing printed. -/
def etat_initial : Etat := ⟨[], [], []⟩

/-- Model of print: appends one line to the collected output. -/
def imprimer (s : Etat) (m : String) : Etat :=
  { s with sortie := s.sortie ++ [m] }

/-- Characters stripped by Python str.strip() with no argument
(ASCII whitespace). -/
def est_espace (c : Char) : Bool :=
  c = ' ' || c = '\t' || c = '\n' || c = '\r' || c = '\x0b' || c = '\x0c'

/-- Model of Python str.strip(): removes whitespace at both ends. -/
def retirer_blancs (l : List Char) : List Char :=
  ((l.dropWhile est_espace).reverse.dropWhile est_espace).reverse

/-- Model of Python text.split(char): splits on every comma, keeping
empty pieces; the empty text gives one empty piece. -/
def decouper_virgules : List Char → List (List Char)
  | [] => [[]]
  | ',' :: rest => [] :: decouper_virgules rest
  | c :: rest =>
    match decouper_virgules rest with
    | [] => [[c]]
    | t :: ts => (c :: t) :: ts

/-- ASCII decimal digit test, as accepted by Python int(). -/
def est_chiffre (c : Char) : Bool := ('0' ≤ c) && (c ≤ '9')

/-- Numeric value of an ASCII digit. -/
def val_chiffre (c : Char) : Nat := c.toNat - '0'.toNat

/-- Remaining digits of a Python int literal: digits with single
underscores allowed between digits only. -/
def suite_chiffres : Nat → List Char → Option Nat
  | acc, [] => some acc
  | acc, '_' :: c :: rest =>
    if est_chiffre c then suite_chiffres (acc * 10 + val_chiffre c) rest else none
  | acc, c :: rest =>
    if est_chiffre c then suite_chiffres (acc * 10 + val_chiffre c) rest else none

/-- Nonempty digit sequence of a Python int literal. -/
def lire_nat : List Char → Option Nat
  | [] => none
  | c :: rest => if est_chiffre c then suite_chiffres (val_chiffre c) rest else none

/-- Model of Python int(text) in base 10 on ASCII text: surrounding
whitespace is stripped, then an optional sign precedes the digits; none
models a ValueError.  Note that a leading minus sign is accepted, so the
result may be negative. -/
def python_int (l : List Char) : Option Int :=
  match retirer_blancs l with
  | '-' :: rest => (lire_nat rest).map (fun n => -(n : Int))
  | '+' :: rest => (lire_nat rest).map (fun n => (n : Int))
  | autre => (lire_nat autre).map (fun n => (n : Int))

/-- Model of the expression Produit(type_p=code[0].upper(), volume=int(code[1:])):
IndexError when the code is empty, ValueError when the remainder is not a
Python int literal. -/
def analyser_code (code : List Char) : Except Erreur Produit :=
  match code with
  | [] => .error .indexError
  | c :: rest =>
    match python_int rest with
    | none => .error .valueError
    | some v => .ok ⟨c.toUpper, v⟩

/-- Lookup of a key in the stock dict. -/
def lire_stock : List (Char × List Produit) → Char → Option (List Produit)
  | [], _ => none
  | (k, q) :: rest, c => if k = c then some q else lire_stock rest c

/-- Assignment of a key in the stock dict: updates in place when the key
is present, otherwise appends the new key at the end, as a Python dict
preserving insertion order does. -/
def ecrire_stock : List (Char × List Produit) → Char → List Produit → List (Char × List Produit)
  | [], c, q => [(c, q)]
  | (k, q0) :: rest, c, q =>
    if k = c then (c, q) :: rest else (k, q0) :: ecrire_stock rest c q

/-- The queue of a kind, the empty queue when the kind is absent. -/
def file_stock (s : Etat) (k : Char) : List Produit :=
  (lire_stock s.stock k).getD []

/-- String rendering of a product, Python __str__: kind then volume. -/
def aff_produit (p : Produit) : String :=
  String.mk [p.type_p] ++ toString p.volume

/-- Model of GestionAlertes.log, a deque with maxlen 3: keeps only the
last 3 elements by dropping from the front. -/
def borner3 : List Alerte → List Alerte
  | a :: rest => if rest.length ≥ 3 then borner3 rest else a :: rest
  | [] => []

/-- Model of GestionAlertes.ajouter_alerte: appends the alert, evicting
the oldest when the deque is full, and prints the [ALERTE] line. -/
def ajouter_alerte (s : Etat) (m : String) : Etat :=
  { s with
    log := borner3 (s.log ++ [Alerte.mk m]),
    sortie := s.sortie ++ ["[ALERTE] " ++ m] }

/-- The low stock bound SEUIL_MIN of GestionStock. -/
def seuil_min : Nat := 2

/-- Message of a low stock alert, from the f-string in verifier_seuil. -/
def message_seuil (k : Char) (n : Nat) : String :=
  "Rupture imminente " ++ String.mk [k] ++ " (Stock: " ++ toString n ++ ")"

/-- Model of GestionStock._verifier_seuil: records a low stock alert when
the remaining quantity is strictly below SEUIL_MIN.  At its only call
site the kind is present in the dict, so the KeyError path of the Python
indexing is unreachable and the absent case reads as the empty queue. -/
def verifier_seuil (s : Etat) (k : Char) : Etat :=
  let qte := (file_stock s k).length
  if qte < seuil_min then ajouter_alerte s (message_seuil k qte) else s

/-- Model of GestionStock._ajouter_unitaire: parses the code and appends
the product at the tail of the queue of its kind, creating the queue when
absent; on IndexError or ValueError prints the format error line and
leaves the ledger unchanged. -/
def ajouter_unitaire (s : Etat) (code : List Char) : Etat :=
  match analyser_code code with
  | .error _ => imprimer s ("Erreur format : " ++ String.mk code)
  | .ok p =>
    imprimer
      { s with stock := ecrire_stock s.stock p.type_p (file_stock s p.type_p ++ [p]) }
      ("Stock + : " ++ aff_produit p)

/-- Model of GestionStock.ajouter_masse: the empty text is a no-op,
otherwise the text is split on commas, each piece is stripped, and every
piece (also an empty one) goes through single ingestion. -/
def ajouter_masse (s : Etat) (t : List Char) : Etat :=
  if t = [] then s
  else ((decouper_virgules t).map retirer_blancs).foldl ajouter_unitaire s

/-- Scan of a queue from the front for the first product of the requested
volume, returning it with the queue with that product removed. -/
def extraire (v : Int) : List Produit → Option (Produit × List Produit)
  | [] => none
  | p :: rest =>
    if p.volume = v then some (p, rest)
    else (extraire v rest).map (fun pr => (pr.1, p :: pr.2))

/-- Model of GestionStock.retirer_produit: None when the kind has no
queue or an empty queue; otherwise the first product of the requested
volume is deleted, the threshold check runs, and the product is returned;
None when no product matches. -/
def retirer_produit (s : Etat) (k : Char) (v : Int) : Option Produit × Etat :=
  match lire_stock s.stock k with
  | none => (none, s)
  | some q =>
    if q = [] then (none, s)
    else
      match extraire v q with
      | none => (none, s)
      | some (p, q2) =>
        let s1 := { s with stock := ecrire_stock s.stock k q2 }
        (some p, verifier_seuil s1 k)

/-- Message of a shortage alert in the order assembler, from the f-string
in recuperer_ou_gerer_rupture. -/
def message_rupture (code : List Char) : String :=
  "Rupture stock: " ++ String.mk code

/-- Model of GestionColis._recuperer_ou_gerer_rupture: parses the line
with no exception handler, so IndexError and ValueError escape; on a
successful withdrawal returns the product, otherwise records a shortage
alert and drops the line. -/
def recuperer_ou_gerer_rupture (s : Etat) (code : List Char) :
    Except Erreur (Option Produit × Etat) :=
  match analyser_code code with
  | .error e => .error e
  | .ok pr =>
    match retirer_produit s pr.type_p pr.volume with
    | (some p, s2) => .ok (some p, s2)
    | (none, s2) => .ok (none, ajouter_alerte s2 (message_rupture code))

/-- Stable insertion of a product into a list, before the first product
of volume less than or equal to its own. -/
def inserer_desc (p : Produit) : List Produit → List Produit
  | [] => [p]
  | q :: rest =>
    if p.volume < q.volume then q :: inserer_desc p rest else p :: q :: rest

/-- Model of Python sorted(liste, key=lambda x: x.volume, reverse=True):
the documented contract of sorted is a stable sort, here by volume in
decreasing order. -/
def tri_desc (l : List Produit) : List Produit := l.foldr inserer_desc []

/-- Loop of preparer_colis over the order lines: threads the state,
collects the recovered products in order, and stops with the exception
when a line raises, as the Python for loop does. -/
def boucle_preparation : Etat → List (List Char) → List Produit →
    Etat × List Produit × Option Erreur
  | s, [], acc => (s, acc, none)
  | s, code :: rest, acc =>
    match recuperer_ou_gerer_rupture s code with
    | .error e => (s, acc, some e)
    | .ok (some p, s2) => boucle_preparation s2 rest (acc ++ [p])
    | .ok (none, s2) => boucle_preparation s2 rest acc

/-- Order line tokens: split on commas, each piece stripped. -/
def lignes_commande (t : List Char) : List (List Char) :=
  (decouper_virgules t).map retirer_blancs

/-- Banner line printed at the start of an order. -/
def message_commande (t : List Char) : String :=
  "\n--- COMMANDE : " ++ String.mk t ++ " ---"

/-- Final line printed by _afficher_colis for the assembled stack. -/
def message_colis (pile : List Produit) : String :=
  "-> Colis assemblé : [" ++ String.intercalate ", " (pile.map aff_produit) ++ "]"

/-- Model of GestionColis.preparer_colis: a no-op on the empty text;
otherwise prints the banner, runs the loop over the lines, and on normal
completion sorts the recovered products by decreasing volume and prints
the package line.  The result carries the final state, the assembled
stack (empty when an exception escaped), and the escaped exception. -/
def preparer_colis (s : Etat) (t : List Char) :
    Etat × List Produit × Option Erreur :=
  if t = [] then (s, [], none)
  else
    match boucle_preparation (imprimer s (message_commande t)) (lignes_commande t) [] with
    | (s2, _, some e) => (s2, [], some e)
    | (s2, recs, none) =>
      (imprimer s2 (message_colis (tri_desc recs)), tri_desc recs, none)

/-- Products recovered by the loop of preparer_colis on an order. -/
def recuperes (s : Etat) (t : List Char) : List Produit :=
  (boucle_preparation (imprimer s (message_commande t)) (lignes_commande t) []).2.1

/-- Exception escaping from the loop of preparer_colis, when any. -/
def erreur_commande (s : Etat) (t : List Char) : Option Erreur :=
  (boucle_preparation (imprimer s (message_commande t)) (lignes_commande t) []).2.2

/-- Assembled stack reported by preparer_colis. -/
def pile_colis (s : Etat) (t : List Char) : List Produit :=
  (preparer_colis s t).2.1

/-- Recording of a whole sequence of alerts, one ajouter_alerte per
message. -/
def enregistrer_serie (s : Etat) (msgs : List String) : Etat :=
  msgs.foldl ajouter_alerte s

/-! ### Lemmas about the stock dict -/

theorem lire_ecrire_meme (st : List (Char × List Produit)) (c : Char) (q : List Produit) :
    lire_stock (ecrire_stock st c q) c = some q := by
  induction st with
  | nil => simp [ecrire_stock, lire_stock]
  | cons e rest ih =>
    obtain ⟨k, q0⟩ := e
    by_cases h : k = c <;> simp [ecrire_stock, lire_stock, h, ih]

theorem lire_ecrire_autre (st : List (Char × List Produit)) (c d : Char) (q : List Produit)
    (h : c ≠ d) : lire_stock (ecrire_stock st c q) d = lire_stock st d := by
  induction st with
  | nil => simp [ecrire_stock, lire_stock, h]
  | cons e rest ih =>
    obtain ⟨k, q0⟩ := e
    by_cases hk : k = c
    · subst hk
      simp [ecrire_stock, lire_stock, h]
    · simp [ecrire_stock, lire_stock, hk, ih]

/-! ### Lemmas about the queue scan -/

theorem extraire_aucun (v : Int) (q : List Produit) (h : ∀ p ∈ q, p.volume ≠ v) :
    extraire v q = none := by
  induction q with
  | nil => rfl
  | cons p rest ih =>
    have hp : p.volume ≠ v := h p (by simp)
    have hrest : extraire v rest = none := ih (fun r hr => h r (by simp [hr]))
    simp [extraire, hp, hrest]

theorem extraire_trouve (v : Int) (q1 : List Produit) (p : Produit) (q2 : List Produit)
    (h1 : ∀ r ∈ q1, r.volume ≠ v) (hp : p.volume = v) :
    extraire v (q1 ++ p :: q2) = some (p, q1 ++ q2) := by
  induction q1 with
  | nil => simp [extraire, hp]
  | cons r rest ih =>
    have hr : r.volume ≠ v := h1 r (by simp)
    have := ih (fun x hx => h1 x (by simp [hx]))
    simp [extraire, hr, this]

/-! ### Characterisation of the withdrawal -/

theorem verifier_seuil_stock (s : Etat) (k : Char) :
    (verifier_seuil s k).stock = s.stock := by
  by_cases h : (file_stock s k).length < seuil_min <;>
    simp [verifier_seuil, h, ajouter_alerte]

theorem verifier_seuil_log (s : Etat) (k : Char) :
    (verifier_seuil s k).log =
      if (file_stock s k).length < seuil_min then
        borner3 (s.log ++ [Alerte.mk (message_seuil k (file_stock s k).length)])
      else s.log := by
  by_cases h : (file_stock s k).length < seuil_min <;>
    simp [verifier_seuil, h, ajouter_alerte]

theorem retirer_carac (s : Etat) (k : Char) (v : Int) :
    retirer_produit s k v =
      match extraire v (file_stock s k) with
      | none => (none, s)
      | some (p, q2) =>
        (some p, verifier_seuil { s with stock := ecrire_stock s.stock k q2 } k) := by
  unfold retirer_produit file_stock
  cases h : lire_stock s.stock k with
  | none => simp [extraire]
  | some q =>
    cases q with
    | nil => simp [extraire]
    | cons p rest => simp

theorem retirer_aucun_inchange (s : Etat) (k : Char) (v : Int)
    (h : (retirer_produit s k v).1 = none) : (retirer_produit s k v).2 = s := by
  rw [retirer_carac] at h ⊢
  cases hx : extraire v (file_stock s k) with
  | none => simp [hx]
  | some pr => simp [hx] at h

/-! ### Lemmas about the bounded alert deque -/

theorem borner3_court (l : List Alerte) (h : l.length ≤ 3) : borner3 l = l := by
  cases l with
  | nil => rfl
  | cons a rest =>
    have : ¬ rest.length ≥ 3 := by simp at h; omega
    simp [borner3, this]

theorem borner3_cons_long (x : Alerte) (l : List Alerte) (h : l.length ≥ 3) :
    borner3 (x :: l) = borner3 l := by
  simp [borner3, h]

theorem borner3_append (a b : List Alerte) :
    borner3 (borner3 a ++ b) = borner3 (a ++ b) := by
  induction a with
  | nil => simp [borner3]
  | cons x rest ih =>
    by_cases h : rest.length ≥ 3
    · have h2 : (rest ++ b).length ≥ 3 := by simp; omega
      rw [borner3_cons_long x rest h, List.cons_append, borner3_cons_long x (rest ++ b) h2]
      exact ih
    · have : borner3 (x :: rest) = x :: rest := borner3_court _ (by simp; omega)
      rw [this]

theorem borner3_eq_drop (l : List Alerte) : borner3 l = l.drop (l.length - 3) := by
  induction l with
  | nil => rfl
  | cons a rest ih =>
    by_cases h : rest.length ≥ 3
    · have h1 : (a :: rest).length - 3 = (rest.length - 3) + 1 := by simp; omega
      rw [borner3_cons_long a rest h, h1, List.drop_succ_cons]
      exact ih
    · have h1 : (a :: rest).length - 3 = 0 := by simp; omega
      rw [h1, List.drop_zero]
      exact borner3_court _ (by simp; omega)

theorem borner3_longueur (l : List Alerte) : (borner3 l).length ≤ 3 := by
  rw [borner3_eq_drop]
  simp
  omega

theorem enregistrer_log (msgs : List String) (s : Etat) (hs : s.log.length ≤ 3) :
    (enregistrer_serie s msgs).log = borner3 (s.log ++ msgs.map Alerte.mk) := by
  induction msgs generalizing s with
  | nil => simp [enregistrer_serie, borner3_court _ hs]
  | cons m rest ih =>
    have h1 : (ajouter_alerte s m).log = borner3 (s.log ++ [Alerte.mk m]) := rfl
    have h2 : (ajouter_alerte s m).log.length ≤ 3 := by
      rw [h1]; exact borner3_longueur _
    have h3 := ih (ajouter_alerte s m) h2
    calc (enregistrer_serie s (m :: rest)).log
        = (enregistrer_serie (ajouter_alerte s m) rest).log := rfl
      _ = borner3 ((ajouter_alerte s m).log ++ rest.map Alerte.mk) := h3
      _ = borner3 (borner3 (s.log ++ [Alerte.mk m]) ++ rest.map Alerte.mk) := by rw [h1]
      _ = borner3 ((s.log ++ [Alerte.mk m]) ++ rest.map Alerte.mk) := borner3_append _ _
      _ = borner3 (s.log ++ (m :: rest).map Alerte.mk) := by simp

/-! ### Lemmas about the stable decreasing sort -/

theorem inserer_perm (p : Produit) (l : List Produit) :
    (inserer_desc p l).Perm (p :: l) := by
  induction l with
  | nil => exact List.Perm.refl _
  | cons q rest ih =>
    by_cases h : p.volume < q.volume
    · simp only [inserer_desc, h, if_pos]
      exact (ih.cons q).trans (List.Perm.swap p q rest)
    · simp [inserer_desc, h]

theorem tri_desc_perm (l : List Produit) : (tri_desc l).Perm l := by
  induction l with
  | nil => exact List.Perm.refl _
  | cons x rest ih =>
    have : tri_desc (x :: rest) = inserer_desc x (tri_desc rest) := rfl
    rw [this]
    exact (inserer_perm x (tri_desc rest)).trans (ih.cons x)

theorem mem_inserer {a p : Produit} {l : List Produit} :
    a ∈ inserer_desc p l ↔ a = p ∨ a ∈ l :=
  ⟨fun h => by simpa using (inserer_perm p l).mem_iff.mp h,
   fun h => (inserer_perm p l).mem_iff.mpr (by simpa using h)⟩

theorem inserer_sorted (p : Produit) (l : List Produit)
    (hl : List.Sorted (fun a b => b.volume ≤ a.volume) l) :
    List.Sorted (fun a b => b.volume ≤ a.volume) (inserer_desc p l) := by
  induction l with
  | nil => simp [inserer_desc]
  | cons q rest ih =>
    rw [List.sorted_cons] at hl
    obtain ⟨hq, hrest⟩ := hl
    by_cases h : p.volume < q.volume
    · simp only [inserer_desc, h, if_pos]
      rw [List.sorted_cons]
      refine ⟨fun b hb => ?_, ih hrest⟩
      rcases mem_inserer.mp hb with hb | hb
      · subst hb; omega
      · exact hq b hb
    · simp only [inserer_desc, h, if_neg, Bool.false_eq_true, not_false_iff]
      rw [List.sorted_cons]
      refine ⟨fun b hb => ?_, by rw [List.sorted_cons]; exact ⟨hq, hrest⟩⟩
      rcases List.mem_cons.mp hb with hb | hb
      · subst hb; omega
      · have := hq b hb; omega

theorem tri_desc_sorted (l : List Produit) :
    List.Sorted (fun a b => b.volume ≤ a.volume) (tri_desc l) := by
  induction l with
  | nil => simp [tri_desc]
  | cons x rest ih => exact inserer_sorted x (tri_desc rest) ih

theorem filter_inserer (p : Produit) (l : List Produit) (v : Int) :
    (inserer_desc p l).filter (fun q => q.volume == v) =
      if p.volume == v then p :: l.filter (fun q => q.volume == v)
      else l.filter (fun q => q.volume == v) := by
  induction l with
  | nil =>
    by_cases h : p.volume = v
    · simp [inserer_desc, List.filter, h]
    · have hb : (p.volume == v) = false := beq_eq_false_iff_ne.mpr h
      simp [inserer_desc, List.filter, hb, h]
  | cons q rest ih =>
    by_cases hpq : p.volume < q.volume
    · have hq : ¬ (q.volume = v) ∨ ¬ (p.volume = v) := by omega
      simp only [inserer_desc, hpq, if_pos]
      by_cases hqv : q.volume = v
      · have hpv : ¬ p.volume = v := by omega
        simp [List.filter_cons, hqv, hpv, ih]
      · simp [List.filter_cons, hqv, ih]
    · simp only [inserer_desc, hpq, if_neg, Bool.false_eq_true, not_false_iff]
      by_cases hpv : p.volume = v <;> simp [List.filter_cons, hpv]

/-! ### Lemmas about ingestion -/

theorem ajouter_unitaire_log (s : Etat) (code : List Char) :
    (ajouter_unitaire s code).log = s.log := by
  unfold ajouter_unitaire
  cases analyser_code code <;> simp [imprimer]

theorem foldl_unitaire_log (toks : List (List Char)) (s : Etat) :
    (toks.foldl ajouter_unitaire s).log = s.log := by
  induction toks generalizing s with
  | nil => rfl
  | cons c rest ih => rw [List.foldl_cons, ih, ajouter_unitaire_log]

theorem ajouter_masse_log (s : Etat) (t : List Char) :
    (ajouter_masse s t).log = s.log := by
  unfold ajouter_masse
  split
  · rfl
  · exact foldl_unitaire_log _ _

theorem decouper_ne_nil (l : List Char) : decouper_virgules l ≠ [] := by
  induction l with
  | nil => simp [decouper_virgules]
  | cons c rest ih =>
    by_cases h : c = ','
    · subst h; simp [decouper_virgules]
    · cases hr : decouper_virgules rest with
      | nil => exact absurd hr ih
      | cons t ts =>
        unfold decouper_virgules
        split
        · simp
        · simp_all
        · simp_all

theorem decouper_sous (l : List Char) (piece : List Char)
    (hp : piece ∈ decouper_virgules l) (c : Char) (hc : c ∈ piece) : c ∈ l := by
  induction l generalizing piece with
  | nil =>
    simp [decouper_virgules] at hp
    subst hp
    simp at hc
  | cons x rest ih =>
    by_cases hx : x = ','
    · subst hx
      simp only [decouper_virgules, List.mem_cons] at hp
      rcases hp with hp | hp
      · subst hp; simp at hc
      · exact List.mem_cons_of_mem _ (ih piece hp hc)
    · cases hr : decouper_virgules rest with
      | nil => exact absurd hr (decouper_ne_nil rest)
      | cons t ts =>
        have hdec : decouper_virgules (x :: rest) = (x :: t) :: ts := by
          unfold decouper_virgules
          split
          · simp_all
          · simp_all
          · simp_all
        rw [hdec] at hp
        rcases List.mem_cons.mp hp with hp | hp
        · subst hp
          rcases List.mem_cons.mp hc with hc | hc
          · simp [hc]
          · have : c ∈ rest := ih t (by rw [hr]; exact List.mem_cons_self t ts) hc
            exact List.mem_cons_of_mem _ this
        · have : c ∈ rest := ih piece (by rw [hr]; exact List.mem_cons_of_mem _ hp) hc
          exact List.mem_cons_of_mem _ this

theorem retirer_blancs_tout_espace (l : List Char) (h : ∀ c ∈ l, est_espace c = true) :
    retirer_blancs l = [] := by
  unfold retirer_blancs
  have h1 : l.dropWhile est_espace = [] := List.dropWhile_eq_nil_iff.mpr h
  simp [h1]

theorem ajouter_unitaire_vide (s : Etat) :
    ajouter_unitaire s [] = imprimer s "Erreur format : " := by
  have h : ("Erreur format : " ++ String.mk [] : String) = "Erreur format : " := by decide
  simp [ajouter_unitaire, analyser_code, h]

theorem foldl_unitaire_vides (n : Nat) (s : Etat) :
    (List.replicate n ([] : List Char)).foldl ajouter_unitaire s =
      { s with sortie := s.sortie ++ List.replicate n "Erreur format : " } := by
  induction n generalizing s with
  | zero => simp
  | succ m ih =>
    rw [List.replicate_succ, List.foldl_cons, ajouter_unitaire_vide, ih]
    simp [imprimer, List.replicate_succ]

theorem tri_desc_stable (l : List Produit) (v : Int) :
    (tri_desc l).filter (fun q => q.volume == v) =
      l.filter (fun q => q.volume == v) := by
  induction l with
  | nil => rfl
  | cons x rest ih =>
    have : tri_desc (x :: rest) = inserer_desc x (tri_desc rest) := rfl
    rw [this, filter_inserer]
    by_cases h : x.volume = v <;> simp [List.filter_cons, h, ih]

/-! ### Claim theorems -/

/-- C2: a withdrawal returns NotFound, leaving the state unchanged, when
no product of the requested volume is in the queue of the kind (in
particular when the kind has no queue or an empty queue); otherwise it
returns the earliest inserted product of the requested volume and removes
exactly that product, the items before and after it keeping their
relative order and the queues of the other kinds being untouched.  Being
a total function of the embedding, it never raises. -/
theorem retirer_produit_premier_exact (s : Etat) (k : Char) (v : Int) :
    ((∀ p ∈ file_stock s k, p.volume ≠ v) → retirer_produit s k v = (none, s)) ∧
    (∀ q1 p q2, file_stock s k = q1 ++ p :: q2 → (∀ r ∈ q1, r.volume ≠ v) →
      p.volume = v →
      (retirer_produit s k v).1 = some p ∧
      file_stock (retirer_produit s k v).2 k = q1 ++ q2 ∧
      ∀ d, d ≠ k → lire_stock (retirer_produit s k v).2.stock d = lire_stock s.stock d) := by
  constructor
  · intro h
    rw [retirer_carac, extraire_aucun v _ h]
  · intro q1 p q2 hq h1 hp
    have hext : extraire v (file_stock s k) = some (p, q1 ++ q2) := by
      rw [hq]; exact extraire_trouve v q1 p q2 h1 hp
    have hre : retirer_produit s k v =
        (some p, verifier_seuil { s with stock := ecrire_stock s.stock k (q1 ++ q2) } k) := by
      rw [retirer_carac, hext]
    refine ⟨by rw [hre], ?_, ?_⟩
    · rw [hre]
      unfold file_stock
      rw [verifier_seuil_stock]
      simp [lire_ecrire_meme]
    · intro d hd
      rw [hre]
      simp only [verifier_seuil_stock]
      exact lire_ecrire_autre _ k d _ (Ne.symm hd)

/-- Witness for C2 on a concrete three element queue: the middle product
of volume 2 is withdrawn and the outer two keep their order. -/
theorem retirer_produit_premier_exact_temoin :
    (retirer_produit ⟨[('A', [⟨'A', 1⟩, ⟨'A', 2⟩, ⟨'A', 3⟩])], [], []⟩ 'A' 2).1 =
        some ⟨'A', 2⟩ ∧
      file_stock (retirer_produit ⟨[('A', [⟨'A', 1⟩, ⟨'A', 2⟩, ⟨'A', 3⟩])], [], []⟩ 'A' 2).2 'A' =
        [⟨'A', 1⟩, ⟨'A', 3⟩] := by
  have h := (retirer_produit_premier_exact
      ⟨[('A', [⟨'A', 1⟩, ⟨'A', 2⟩, ⟨'A', 3⟩])], [], []⟩ 'A' 2).2
      [⟨'A', 1⟩] ⟨'A', 2⟩ [⟨'A', 3⟩] (by decide) (by decide) (by decide)
  exact ⟨h.1, h.2.1⟩

/-- C10: a withdrawal that returns NotFound is atomic: the whole state,
ledger and alert log included, is left unchanged, so no threshold check
runs and no alert is recorded by the failed call. -/
theorem retirer_produit_echec_atomique (s : Etat) (k : Char) (v : Int)
    (h : (retirer_produit s k v).1 = none) : (retirer_produit s k v).2 = s :=
  retirer_aucun_inchange s k v h

/-- Witness for C10: withdrawing an absent kind from the initial state
returns the state unchanged. -/
theorem retirer_produit_echec_atomique_temoin :
    (retirer_produit etat_initial 'Z' 0).2 = etat_initial :=
  retirer_produit_echec_atomique etat_initial 'Z' 0 (by decide)

/-- C3: after a successful withdrawal the alert log gains exactly one
alert precisely when the remaining queue length of the kind is strictly
below the threshold 2, with the message built from the kind and the
remaining quantity (also when that quantity is 0); a withdrawal returning
NotFound and any ingestion leave the alert log unchanged. -/
theorem seuil_apres_retrait (s : Etat) (k : Char) (v : Int) :
    (∀ p, (retirer_produit s k v).1 = some p →
      (retirer_produit s k v).2.log =
        if (file_stock (retirer_produit s k v).2 k).length < seuil_min then
          borner3 (s.log ++
            [Alerte.mk (message_seuil k (file_stock (retirer_produit s k v).2 k).length)])
        else s.log) ∧
    ((retirer_produit s k v).1 = none → (retirer_produit s k v).2.log = s.log) ∧
    (∀ t, (ajouter_masse s t).log = s.log) := by
  refine ⟨?_, ?_, fun t => ajouter_masse_log s t⟩
  · intro p hp
    cases hext : extraire v (file_stock s k) with
    | none =>
      rw [retirer_carac, hext] at hp
      simp at hp
    | some pr =>
      obtain ⟨p0, q2⟩ := pr
      have hre : retirer_produit s k v =
          (some p0, verifier_seuil { s with stock := ecrire_stock s.stock k q2 } k) := by
        rw [retirer_carac, hext]
      rw [hre]
      have hfs : file_stock (verifier_seuil { s with stock := ecrire_stock s.stock k q2 } k) k
          = q2 := by
        unfold file_stock
        rw [verifier_seuil_stock]
        simp [lire_ecrire_meme]
      have hfs1 : file_stock { s with stock := ecrire_stock s.stock k q2 } k = q2 := by
        unfold file_stock
        simp [lire_ecrire_meme]
      simp only [hfs, verifier_seuil_log, hfs1]
  · intro h
    rw [retirer_aucun_inchange s k v h]

/-- Witness for C3: withdrawing volume 5 from a queue of two leaves one
product, which is below the threshold, so the alert fires. -/
theorem seuil_apres_retrait_temoin :
    (retirer_produit ⟨[('A', [⟨'A', 5⟩, ⟨'A', 7⟩])], [], []⟩ 'A' 5).2.log =
      if (file_stock (retirer_produit ⟨[('A', [⟨'A', 5⟩, ⟨'A', 7⟩])], [], []⟩ 'A' 5).2 'A').length
          < seuil_min then
        borner3 ((⟨[('A', [⟨'A', 5⟩, ⟨'A', 7⟩])], [], []⟩ : Etat).log ++
          [Alerte.mk (message_seuil 'A'
            (file_stock (retirer_produit ⟨[('A', [⟨'A', 5⟩, ⟨'A', 7⟩])], [], []⟩ 'A' 5).2 'A').length)])
      else (⟨[('A', [⟨'A', 5⟩, ⟨'A', 7⟩])], [], []⟩ : Etat).log :=
  (seuil_apres_retrait ⟨[('A', [⟨'A', 5⟩, ⟨'A', 7⟩])], [], []⟩ 'A' 5).1 ⟨'A', 5⟩ (by decide)

/-- C5: the alert log never exceeds 3 entries; when full, recording
evicts the oldest entry; recording a sequence of messages keeps exactly
the last 3, oldest first; record and list are total functions and never
fail. -/
theorem journal_alertes_borne (s : Etat) (msgs : List String) (hs : s.log.length ≤ 3) :
    (∀ m, ((ajouter_alerte s m).log).length ≤ 3) ∧
    (∀ m, s.log.length = 3 → (ajouter_alerte s m).log = s.log.tail ++ [Alerte.mk m]) ∧
    (enregistrer_serie s msgs).log = borner3 (s.log ++ msgs.map Alerte.mk) ∧
    (s.log = [] → 3 < msgs.length →
      (enregistrer_serie s msgs).log = (msgs.map Alerte.mk).drop (msgs.length - 3)) := by
  refine ⟨fun m => borner3_longueur _, ?_, enregistrer_log msgs s hs, ?_⟩
  · intro m h3
    obtain ⟨a, b, c, habc⟩ := List.length_eq_three.mp h3
    show borner3 (s.log ++ [Alerte.mk m]) = s.log.tail ++ [Alerte.mk m]
    rw [habc]
    have h4 : ([a, b, c] ++ [Alerte.mk m] : List Alerte) = a :: [b, c, Alerte.mk m] := rfl
    rw [h4, borner3_cons_long _ _ (by simp), borner3_court _ (by simp)]
    rfl
  · intro h0 hlen
    rw [enregistrer_log msgs s hs, h0, List.nil_append, borner3_eq_drop]
    simp

/-- Witness for C5: recording five alerts from the initial state keeps
the last three. -/
theorem journal_alertes_borne_temoin :
    (enregistrer_serie etat_initial ["a", "b", "c", "d", "e"]).log =
      ((["a", "b", "c", "d", "e"].map Alerte.mk)).drop
        (["a", "b", "c", "d", "e"].length - 3) :=
  (journal_alertes_borne etat_initial ["a", "b", "c", "d", "e"]
    (by decide)).2.2.2 rfl (by decide)

/-- C4: when every line of a nonempty order is successfully withdrawn
(the loop raises no exception and recovers one product per line), the
reported package is the stable decreasing sort of the recovered products:
it is sorted by decreasing volume, it is a permutation of the recovered
products, and the products of any fixed volume appear in the order in
which they were recovered. -/
theorem preparer_colis_tri_stable (s : Etat) (t : List Char) (h1 : t ≠ [])
    (h2 : erreur_commande s t = none)
    (_h3 : (recuperes s t).length = (lignes_commande t).length) :
    pile_colis s t = tri_desc (recuperes s t) ∧
    List.Sorted (fun a b => b.volume ≤ a.volume) (pile_colis s t) ∧
    (∀ v, (pile_colis s t).filter (fun q => q.volume == v) =
      (recuperes s t).filter (fun q => q.volume == v)) ∧
    (pile_colis s t).Perm (recuperes s t) := by
  rcases hb : boucle_preparation (imprimer s (message_commande t)) (lignes_commande t) []
    with ⟨s2, recs, err⟩
  have herr : err = none := by
    have := h2
    unfold erreur_commande at this
    rw [hb] at this
    exact this
  subst herr
  have hrecs : recuperes s t = recs := by
    unfold recuperes
    rw [hb]
  have hpile : pile_colis s t = tri_desc recs := by
    unfold pile_colis preparer_colis
    rw [if_neg h1, hb]
  rw [hpile, hrecs]
  exact ⟨rfl, tri_desc_sorted recs, fun v => tri_desc_stable recs v, tri_desc_perm recs⟩

/-- Witness for C4 on the worked example of the specification: stock
A1 A2 A3 B1 B2 C3 C3 and order A3, C3. -/
theorem preparer_colis_tri_stable_temoin :
    pile_colis
        ⟨[('A', [⟨'A', 1⟩, ⟨'A', 2⟩, ⟨'A', 3⟩]),
          ('B', [⟨'B', 1⟩, ⟨'B', 2⟩]),
          ('C', [⟨'C', 3⟩, ⟨'C', 3⟩])], [], []⟩
        ['A', '3', ',', ' ', 'C', '3'] =
      tri_desc (recuperes
        ⟨[('A', [⟨'A', 1⟩, ⟨'A', 2⟩, ⟨'A', 3⟩]),
          ('B', [⟨'B', 1⟩, ⟨'B', 2⟩]),
          ('C', [⟨'C', 3⟩, ⟨'C', 3⟩])], [], []⟩
        ['A', '3', ',', ' ', 'C', '3']) :=
  (preparer_colis_tri_stable
    ⟨[('A', [⟨'A', 1⟩, ⟨'A', 2⟩, ⟨'A', 3⟩]),
      ('B', [⟨'B', 1⟩, ⟨'B', 2⟩]),
      ('C', [⟨'C', 3⟩, ⟨'C', 3⟩])], [], []⟩
    ['A', '3', ',', ' ', 'C', '3'] (by decide) (by decide) (by decide)).1

/-- C6: a well formed order line whose kind and volume are not in stock
is handled without an exception: the withdrawal leaves the state
unchanged, exactly one shortage alert naming the original code is
recorded, the ledger is untouched, the line contributes no product, and
the loop continues with the remaining lines; in particular the order A9
against the empty ledger yields an empty package, no exception, and
exactly one alert mentioning A9. -/
theorem rupture_ligne (s : Etat) (code : List Char) (k : Char) (v : Int)
    (hp : analyser_code code = .ok ⟨k, v⟩)
    (hn : (retirer_produit s k v).1 = none) :
    recuperer_ou_gerer_rupture s code =
        .ok (none, ajouter_alerte s (message_rupture code)) ∧
    (ajouter_alerte s (message_rupture code)).stock = s.stock ∧
    (ajouter_alerte s (message_rupture code)).log =
      borner3 (s.log ++ [Alerte.mk (message_rupture code)]) ∧
    (∀ rest acc, boucle_preparation s (code :: rest) acc =
      boucle_preparation (ajouter_alerte s (message_rupture code)) rest acc) ∧
    (pile_colis etat_initial ['A', '9'] = [] ∧
      (preparer_colis etat_initial ['A', '9']).1.log = [Alerte.mk "Rupture stock: A9"] ∧
      (preparer_colis etat_initial ['A', '9']).2.2 = none) := by
  have hs2 : (retirer_produit s k v).2 = s := retirer_aucun_inchange s k v hn
  have hpair : retirer_produit s k v = (none, s) := by
    rcases hr : retirer_produit s k v with ⟨o, s2⟩
    rw [hr] at hn hs2
    simp only at hn hs2
    rw [hn, hs2]
  have hstep : recuperer_ou_gerer_rupture s code =
      .ok (none, ajouter_alerte s (message_rupture code)) := by
    unfold recuperer_ou_gerer_rupture
    rw [hp]
    simp only
    rw [hpair]
  refine ⟨hstep, rfl, rfl, ?_, by decide⟩
  intro rest acc
  simp only [boucle_preparation]
  rw [hstep]

/-- Witness for C6: the line B4 against the empty ledger resolves into a
shortage alert, without an exception. -/
theorem rupture_ligne_temoin :
    recuperer_ou_gerer_rupture etat_initial ['B', '4'] =
      .ok (none, ajouter_alerte etat_initial (message_rupture ['B', '4'])) :=
  (rupture_ligne etat_initial ['B', '4'] 'B' 4 (by rfl) (by decide)).1

/-- Counterexample to C7 as stated: the code A-3 ingests successfully,
storing a product with the negative volume -3 and printing the success
line, with no format error. -/
theorem ingestion_volume_negatif_contre :
    (ajouter_unitaire etat_initial ['A', '-', '3']).stock = [('A', [⟨'A', -3⟩])] ∧
    (ajouter_unitaire etat_initial ['A', '-', '3']).sortie = ["Stock + : A-3"] ∧
    (-3 : Int) < 0 := by
  refine ⟨by decide, ?_, by decide⟩
  have h : analyser_code ['A', '-', '3'] = .ok ⟨'A', -3⟩ := by rfl
  simp [ajouter_unitaire, h, imprimer, etat_initial]
  decide

/-- C7 amended: ingest_one parses the remainder of the code with Python
int semantics, so the stored volume is an arbitrary integer, negative
ones included; on success the product is appended at the tail of the
queue of the uppercased first character; exactly when the code is empty
(IndexError) or the remainder is not a Python int literal (ValueError)
the operation fails with a format error, leaving the ledger and the alert
log unchanged. -/
theorem ajouter_unitaire_analyse (s : Etat) (code : List Char) :
    (∀ c rest v, code = c :: rest → python_int rest = some v →
      (ajouter_unitaire s code).stock =
        ecrire_stock s.stock c.toUpper (file_stock s c.toUpper ++ [⟨c.toUpper, v⟩]) ∧
      (ajouter_unitaire s code).sortie =
        s.sortie ++ ["Stock + : " ++ aff_produit ⟨c.toUpper, v⟩]) ∧
    (∀ e, analyser_code code = .error e →
      (ajouter_unitaire s code).stock = s.stock ∧
      (ajouter_unitaire s code).sortie =
        s.sortie ++ ["Erreur format : " ++ String.mk code]) ∧
    (ajouter_unitaire s code).log = s.log ∧
    (code = [] → analyser_code code = .error .indexError) ∧
    (∀ c rest, code = c :: rest → python_int rest = none →
      analyser_code code = .error .valueError) := by
  refine ⟨?_, ?_, ajouter_unitaire_log s code, ?_, ?_⟩
  · intro c rest v hc hv
    subst hc
    have h : analyser_code (c :: rest) = .ok ⟨c.toUpper, v⟩ := by
      simp [analyser_code, hv]
    constructor <;> simp [ajouter_unitaire, h, imprimer]
  · intro e he
    constructor <;> simp [ajouter_unitaire, he, imprimer]
  · intro hc
    subst hc
    rfl
  · intro c rest hc hv
    subst hc
    simp [analyser_code, hv]

/-- Witness for C7 amended: ingesting A-3 into the initial state appends
a product of volume -3 to the queue of kind A. -/
theorem ajouter_unitaire_analyse_temoin :
    (ajouter_unitaire etat_initial ['A', '-', '3']).stock =
        ecrire_stock etat_initial.stock 'A'.toUpper
          (file_stock etat_initial 'A'.toUpper ++ [⟨'A'.toUpper, -3⟩]) ∧
      (ajouter_unitaire etat_initial ['A', '-', '3']).sortie =
        etat_initial.sortie ++ ["Stock + : " ++ aff_produit ⟨'A'.toUpper, -3⟩] :=
  (ajouter_unitaire_analyse etat_initial ['A', '-', '3']).1 'A' ['-', '3'] (-3)
    rfl (by decide)

/-- Counterexample to C8 as stated: the blank text of one space is not a
silent no-op: the ledger is unchanged but a format error diagnostic is
printed for its single blank token. -/
theorem ajouter_masse_blanc_contre :
    (ajouter_masse etat_initial [' ']).sortie = ["Erreur format : "] ∧
    (ajouter_masse etat_initial [' ']).stock = [] := by
  constructor
  · have h : ajouter_masse etat_initial [' '] =
        [[]].foldl ajouter_unitaire etat_initial := by
      have hd : (decouper_virgules [' ']).map retirer_blancs = [[]] := by decide
      simp [ajouter_masse, hd]
    rw [h]
    simp [ajouter_unitaire_vide, imprimer, etat_initial]
  · decide

/-- C8 amended: the empty text is a no-op; a nonempty text is split on
commas, each token stripped, and every token, empty ones included, is
routed to single ingestion; hence a blank nonempty text leaves the ledger
and the alert log unchanged but reports one format error diagnostic per
comma separated token. -/
theorem ajouter_masse_decoupage (s : Etat) (t : List Char) :
    (t = [] → ajouter_masse s t = s) ∧
    (t ≠ [] → ajouter_masse s t =
      ((decouper_virgules t).map retirer_blancs).foldl ajouter_unitaire s) ∧
    (t ≠ [] → (∀ c ∈ t, est_espace c = true) →
      (ajouter_masse s t).stock = s.stock ∧
      (ajouter_masse s t).log = s.log ∧
      (ajouter_masse s t).sortie =
        s.sortie ++ List.replicate (decouper_virgules t).length "Erreur format : ") := by
  refine ⟨fun h => by simp [ajouter_masse, h], fun h => by simp [ajouter_masse, h], ?_⟩
  intro h hblanc
  have htoks : (decouper_virgules t).map retirer_blancs =
      List.replicate (decouper_virgules t).length ([] : List Char) := by
    have hmem : ∀ x ∈ (decouper_virgules t).map retirer_blancs, x = ([] : List Char) := by
      intro x hx
      obtain ⟨piece, hpiece, hmap⟩ := List.mem_map.mp hx
      rw [← hmap]
      exact retirer_blancs_tout_espace piece
        (fun c hc => hblanc c (decouper_sous t piece hpiece c hc))
    have := List.eq_replicate_of_mem hmem
    simpa using this
  have hrun : ajouter_masse s t =
      { s with sortie := s.sortie ++
          List.replicate (decouper_virgules t).length "Erreur format : " } := by
    rw [show ajouter_masse s t =
        ((decouper_virgules t).map retirer_blancs).foldl ajouter_unitaire s from
      by simp [ajouter_masse, h], htoks, foldl_unitaire_vides]
  rw [hrun]
  exact ⟨rfl, rfl, rfl⟩

/-- Witness for C8 amended: the blank text of two spaces has one blank
token; the ledger and the log stay empty and one format error line is
reported. -/
theorem ajouter_masse_decoupage_temoin :
    (ajouter_masse etat_initial [' ', ' ']).stock = etat_initial.stock ∧
    (ajouter_masse etat_initial [' ', ' ']).log = etat_initial.log ∧
    (ajouter_masse etat_initial [' ', ' ']).sortie =
      etat_initial.sortie ++
        List.replicate (decouper_virgules [' ', ' ']).length "Erreur format : " :=
  (ajouter_masse_decoupage etat_initial [' ', ' ']).2.2 (by decide) (by decide)

/-- C1 evidence of the defect: a malformed order line is parsed with no
exception handler in the assembler, so the call terminates abnormally and
the remaining lines are dropped.  The order AX, A1 against a ledger
holding one A1 escapes with a ValueError from the first line, the package
is empty, and the well formed line A1 is never processed, its product
staying in stock; an empty token raises an IndexError and a one character
token raises a ValueError as well. -/
theorem preparer_colis_ligne_malformee :
    (preparer_colis (ajouter_masse etat_initial ['A', '1']) ['A', 'X', ',', ' ', 'A', '1']).2.2 =
        some Erreur.valueError ∧
    (preparer_colis (ajouter_masse etat_initial ['A', '1']) ['A', 'X', ',', ' ', 'A', '1']).2.1 = [] ∧
    file_stock
        (preparer_colis (ajouter_masse etat_initial ['A', '1']) ['A', 'X', ',', ' ', 'A', '1']).1 'A' =
      [⟨'A', 1⟩] ∧
    (preparer_colis etat_initial [',']).2.2 = some Erreur.indexError ∧
    (preparer_colis etat_initial ['A']).2.2 = some Erreur.valueError := by
  decide

/-- C9: from any state in which no A of volume 1 and no B of volume 2 is
stocked, ingesting the batch A1, B2 then withdrawing A volume 1 and then
B volume 2 both succeed and return products whose kind and volume equal
what was ingested. -/
theorem aller_retour (s : Etat)
    (hA : ∀ p ∈ file_stock s 'A', p.volume ≠ 1)
    (hB : ∀ p ∈ file_stock s 'B', p.volume ≠ 2) :
    (retirer_produit (ajouter_masse s ['A', '1', ',', ' ', 'B', '2']) 'A' 1).1 =
        some ⟨'A', 1⟩ ∧
    (retirer_produit
        (retirer_produit (ajouter_masse s ['A', '1', ',', ' ', 'B', '2']) 'A' 1).2
        'B' 2).1 = some ⟨'B', 2⟩ := by
  have hsplit : (decouper_virgules ['A', '1', ',', ' ', 'B', '2']).map retirer_blancs =
      [['A', '1'], ['B', '2']] := by decide
  have hm : ajouter_masse s ['A', '1', ',', ' ', 'B', '2'] =
      ajouter_unitaire (ajouter_unitaire s ['A', '1']) ['B', '2'] := by
    simp [ajouter_masse, hsplit]
  rw [hm]
  have ha1 : analyser_code ['A', '1'] = .ok ⟨'A', 1⟩ := by rfl
  have hb2 : analyser_code ['B', '2'] = .ok ⟨'B', 2⟩ := by rfl
  set sA := ajouter_unitaire s ['A', '1'] with hsAdef
  set sB := ajouter_unitaire sA ['B', '2'] with hsBdef
  have hsA : sA.stock = ecrire_stock s.stock 'A' (file_stock s 'A' ++ [⟨'A', 1⟩]) := by
    rw [hsAdef]
    simp [ajouter_unitaire, ha1, imprimer]
  have hsB : sB.stock = ecrire_stock sA.stock 'B' (file_stock sA 'B' ++ [⟨'B', 2⟩]) := by
    rw [hsBdef]
    simp [ajouter_unitaire, hb2, imprimer]
  have hfAB : file_stock sA 'B' = file_stock s 'B' := by
    unfold file_stock
    rw [hsA, lire_ecrire_autre s.stock 'A' 'B' _ (by decide)]
  have hfA : file_stock sB 'A' = file_stock s 'A' ++ [⟨'A', 1⟩] := by
    unfold file_stock
    rw [hsB, lire_ecrire_autre sA.stock 'B' 'A' _ (by decide), hsA, lire_ecrire_meme]
    rfl
  have hfB : file_stock sB 'B' = file_stock s 'B' ++ [⟨'B', 2⟩] := by
    unfold file_stock
    rw [hsB, lire_ecrire_meme, hfAB]
    rfl
  have hextA : extraire 1 (file_stock sB 'A') = some (⟨'A', 1⟩, file_stock s 'A') := by
    rw [hfA]
    have h := extraire_trouve 1 (file_stock s 'A') ⟨'A', 1⟩ [] hA rfl
    simpa using h
  have hreA : retirer_produit sB 'A' 1 =
      (some ⟨'A', 1⟩,
        verifier_seuil { sB with stock := ecrire_stock sB.stock 'A' (file_stock s 'A') } 'A') := by
    rw [retirer_carac, hextA]
  constructor
  · rw [hreA]
  · rw [hreA]
    have hfB2 : file_stock
        (verifier_seuil { sB with stock := ecrire_stock sB.stock 'A' (file_stock s 'A') } 'A')
        'B' = file_stock s 'B' ++ [⟨'B', 2⟩] := by
      unfold file_stock
      rw [verifier_seuil_stock]
      show (lire_stock (ecrire_stock sB.stock 'A' (file_stock s 'A')) 'B').getD [] = _
      rw [lire_ecrire_autre sB.stock 'A' 'B' _ (by decide)]
      have h := hfB
      unfold file_stock at h
      exact h
    have hextB : extraire 2 (file_stock
        (verifier_seuil { sB with stock := ecrire_stock sB.stock 'A' (file_stock s 'A') } 'A')
        'B') = some (⟨'B', 2⟩, file_stock s 'B') := by
      rw [hfB2]
      have h := extraire_trouve 2 (file_stock s 'B') ⟨'B', 2⟩ [] hB rfl
      simpa using h
    rw [retirer_carac, hextB]

/-- Witness for C9 from the initial empty ledger. -/
theorem aller_retour_temoin :
    (retirer_produit (ajouter_masse etat_initial ['A', '1', ',', ' ', 'B', '2']) 'A' 1).1 =
        some ⟨'A', 1⟩ ∧
    (retirer_produit
        (retirer_produit (ajouter_masse etat_initial ['A', '1', ',', ' ', 'B', '2']) 'A' 1).2
        'B' 2).1 = some ⟨'B', 2⟩ :=
  aller_retour etat_initial (by decide) (by decide)
